import Mathlib

/-
Verification of the checkify error-effect transform of this repository.

The repository ships the test suite (src/tests/checkify_test.py) for the
experimental checkify module, but the module itself is not under src/.
The data model and the transform are therefore modelled from the
specification (spec.md), faithful to its words; the test file fixes the
surface names (Error with fields err, code, msgs; Error.get; checkify;
the assertion forms; the recharge pattern).
-/

namespace CheckifySpec

/-- Modelled from the spec: the Error value of section 3, the record the
missing checkify module returns.  It carries a boolean occurrence flag
`err`, a small integer `code`, and a code-to-message table `msgs`; the
field names follow the test file (err.err, err.code, err.msgs). -/
structure Error where
  err : Bool
  code : Nat
  msgs : List (Nat × String)
deriving Repr, DecidableEq

/-- Look up a code in a code-to-message table. -/
def lookupMsg (code : Nat) (msgs : List (Nat × String)) : Option String :=
  (msgs.find? (fun p => p.1 == code)).map Prod.snd

/-- Modelled from the spec: Error.get of the missing module.  It returns
none when no fault occurred, and the message registered for the fault
code otherwise. -/
def Error.get (e : Error) : Option String :=
  if e.err then lookupMsg e.code e.msgs else none

/-- Modelled from the spec: the empty, no-fault Error created at the
start of a checkify-wrapped call (section 3, lifecycle). -/
def initError : Error := ⟨false, 0, []⟩

/-- Modelled from the spec: the merge algebra of section 4.1.  `b`
logically occurs after `a` in program order; if `a.occurred` is true the
result is `a` (first fault wins), else the result is `b`. -/
def Error.merge (a b : Error) : Error := if a.err then a else b

/-- Modelled from the spec: the two failure channels of direct
execution (section 7): a host-level exception raised by a failed check
under direct unstaged execution, and the hard trace-time error raised
when a check site is staged with no enclosing transform. -/
inductive Failure where
  | fault (e : Error)
  | traceError (s : String)
deriving Repr, DecidableEq

/-- Modelled from the spec: the trace of a user function at one input,
over the constructs of section 4.4: sequencing of check sites,
conditional branching with a concrete selector, and nested staged
regions.  The predicate of a check site is the concrete boolean the
predicate takes at this input; the computation result is the `ret`
leaf. -/
inductive Prog (α : Type) where
  | ret (v : α)
  | check (pred : Bool) (code : Nat) (msgs : List (Nat × String)) (k : Prog α)
  | cond (b : Bool) (t f : Prog α)
  | jit (p : Prog α)

/-- Whether a trace contains any check site; trace-time staging scans
both branches of a conditional (section 9: the host compiler traces
both branch bodies ahead of execution). -/
def hasCheck {α : Type} : Prog α → Bool
  | .ret _ => false
  | .check _ _ _ _ => true
  | .cond _ t f => hasCheck t || hasCheck f
  | .jit p => hasCheck p

/-- Modelled from the spec: direct (eager, unwrapped) execution
(sections 4.2 and 7).  A false predicate raises the fault immediately as
a host-level exception; a check site inside a staged region with no
enclosing transform is a hard error at trace time. -/
def run_direct {α : Type} : Prog α → Except Failure α
  | .ret v => .ok v
  | .check pred code msgs k =>
      if pred then run_direct k else .error (.fault ⟨true, code, msgs⟩)
  | .cond b t f => if b then run_direct t else run_direct f
  | .jit p =>
      if hasCheck p then .error (.traceError "fault cannot be staged")
      else run_direct p

/-- Modelled from the spec: the checkify transform of section 4.4, the
interpreter that walks the trace with one ambient Error accumulator,
rewriting every check site into a merge against that accumulator; it
returns the accumulated Error together with the normal result, and for
a conditional only the taken branch contributes. -/
def checkify_run {α : Type} : Prog α → Error × α
  | .ret v => (initError, v)
  | .check pred code msgs k =>
      ((if pred then initError else ⟨true, code, msgs⟩ : Error).merge
        (checkify_run k).1,
       (checkify_run k).2)
  | .cond b t f => if b then checkify_run t else checkify_run f
  | .jit p => checkify_run p

/-- Modelled from the spec: the caller-facing checkify surface
(section 6): checkify f is a function returning the pair of the Error
and the original result. -/
def checkify {ι α : Type} (f : ι → Prog α) : ι → Error × α :=
  fun x => checkify_run (f x)

/-- Modelled from the spec: the re-assertion form of the assertion
primitive (section 4.3), taking a pre-computed (occurred, code,
messages) triple; assert2_ in the test file. -/
def assert2_ {α : Type} (pred : Bool) (code : Nat) (msgs : List (Nat × String))
    (k : Prog α) : Prog α :=
  Prog.check pred code msgs k

/-- Modelled from the spec: the user-facing assertion primitive of
section 4.3, built from the check primitive with a single fixed
code. -/
def assert_ {α : Type} (pred : Bool) (msg : String) (k : Prog α) : Prog α :=
  assert2_ pred 0 [(0, msg)] k

/-- Modelled from the spec: the recharge bridge of section 4.5,
converting a returned Error back into a live fault through the
re-assertion form, as the test file does with
assert2_ (not err.err) err.code err.msgs. -/
def recharge (e : Error) : Prog Unit :=
  assert2_ (!e.err) e.code e.msgs (Prog.ret ())

/-- Modelled from the spec: replicated parallel mapping (section 4.4):
the same body executed independently across workers with per-worker
inputs, each worker with its own accumulator, one Error per worker, not
merged across workers. -/
def pmapCheckify {ι α : Type} (body : ι → Prog α) (xs : List ι) :
    List (Error × α) :=
  xs.map (fun x => checkify_run (body x))

/-- Erase every staged-region marker from a trace. -/
def eraseJit {α : Type} : Prog α → Prog α
  | .ret v => .ret v
  | .check pred code msgs k => .check pred code msgs (eraseJit k)
  | .cond b t f => .cond b (eraseJit t) (eraseJit f)
  | .jit p => eraseJit p

/-- One straight-line check site: a concrete predicate value, a code and
a message table. -/
structure Site where
  pred : Bool
  code : Nat
  msgs : List (Nat × String)
deriving Repr, DecidableEq

/-- A straight-line trace made of a list of check sites followed by a
result. -/
def checksProg {α : Type} (sites : List Site) (v : α) : Prog α :=
  sites.foldr (fun s k => Prog.check s.pred s.code s.msgs k) (Prog.ret v)

theorem merge_init_left (e : Error) : initError.merge e = e := by
  simp [Error.merge, initError]

theorem merge_fault_left (a b : Error) (h : a.err = true) : a.merge b = a := by
  simp [Error.merge, h]

theorem checkify_run_of_direct_ok {α : Type} (p : Prog α) (v : α)
    (h : run_direct p = Except.ok v) : checkify_run p = (initError, v) := by
  induction p with
  | ret w =>
      simp [run_direct] at h
      simp [checkify_run, h]
  | check pred code msgs k ih =>
      cases pred with
      | false => simp [run_direct] at h
      | true =>
          simp [run_direct] at h
          simp [checkify_run, ih h, merge_init_left]
  | cond b t f iht ihf =>
      cases b with
      | false =>
          simp [run_direct] at h
          simp [checkify_run, ihf h]
      | true =>
          simp [run_direct] at h
          simp [checkify_run, iht h]
  | jit q ih =>
      cases hc : hasCheck q with
      | false =>
          simp [run_direct, hc] at h
          simp [checkify_run, ih h]
      | true => simp [run_direct, hc] at h

/-- C1: for every function f and every input whose direct execution
completes without a fault (in particular any f with no check sites),
checkify f returns the no-fault Error together with a result identical
to direct execution of f. -/
theorem checkify_no_fault {ι α : Type} (f : ι → Prog α) (x : ι) (v : α)
    (h : run_direct (f x) = Except.ok v) :
    checkify f x = (initError, v) :=
  checkify_run_of_direct_ok (f x) v h

theorem checkify_no_fault_witness :
    run_direct ((fun _ : Unit => Prog.check true 1 [(1, "m")] (Prog.ret (5 : Nat))) ())
      = Except.ok 5 ∧
    checkify (fun _ : Unit => Prog.check true 1 [(1, "m")] (Prog.ret (5 : Nat))) ()
      = (initError, 5) :=
  ⟨rfl, checkify_no_fault _ () 5 rfl⟩

/-- C2: first fault wins: merge a b equals a whenever a.occurred is
true and equals b otherwise, and on a path with two failing check sites
declared A before B the Error returned by checkify is the one of A,
never the one of B. -/
theorem first_fault_wins :
    (∀ a b : Error, a.err = true → a.merge b = a) ∧
    (∀ a b : Error, a.err = false → a.merge b = b) ∧
    (∀ (ca cb : Nat) (ma mb : List (Nat × String)) (v : Nat),
      (checkify_run
        (Prog.check false ca ma (Prog.check false cb mb (Prog.ret v)))).1
        = ⟨true, ca, ma⟩) := by
  refine ⟨fun a b h => merge_fault_left a b h, fun a b h => ?_,
    fun ca cb ma mb v => ?_⟩
  · simp [Error.merge, h]
  · simp [checkify_run, Error.merge]

theorem first_fault_wins_witness :
    (⟨true, 1, [(1, "a")]⟩ : Error).err = true ∧
    (⟨true, 1, [(1, "a")]⟩ : Error).merge ⟨true, 2, [(2, "b")]⟩
      = ⟨true, 1, [(1, "a")]⟩ :=
  ⟨rfl, first_fault_wins.1 _ _ rfl⟩

/-- C4: branch law: when the selector picks branch T, the Error of the
conditional is exactly the Error of T; the untaken branch can be
replaced by anything, and a failing check inside the untaken branch
never appears in the result. -/
theorem branch_law {α : Type} (t f g : Prog α) (c : Nat)
    (m : List (Nat × String)) (w : α) :
    checkify_run (Prog.cond true t f) = checkify_run t ∧
    checkify_run (Prog.cond false t f) = checkify_run f ∧
    checkify_run (Prog.cond true t f) = checkify_run (Prog.cond true t g) ∧
    checkify_run (Prog.cond true t (Prog.check false c m (Prog.ret w)))
      = checkify_run t := by
  refine ⟨?_, ?_, ?_, ?_⟩ <;> simp [checkify_run]

/-- C5: an assertion with a false predicate raises synchronously with
its message under direct unwrapped execution, while under a
checkify-wrapped call it raises nothing and instead yields a returned
Error carrying that message. -/
theorem assert_direct_vs_checkify (msg : String) :
    run_direct (assert_ false msg (Prog.ret ())) =
      Except.error (Failure.fault ⟨true, 0, [(0, msg)]⟩) ∧
    (⟨true, 0, [(0, msg)]⟩ : Error).get = some msg ∧
    checkify_run (assert_ false msg (Prog.ret ())) =
      (⟨true, 0, [(0, msg)]⟩, ()) ∧
    (checkify_run (assert_ false msg (Prog.ret ()))).1.get = some msg := by
  refine ⟨rfl, rfl, ?_, ?_⟩ <;>
    simp [assert_, assert2_, checkify_run, Error.merge, Error.get, lookupMsg]

/-- C6: a check site inside a staged region with no enclosing checkify
transform makes tracing fail immediately with a hard trace-time error,
rather than being deferred or dropped. -/
theorem assert_staged_trace_error {α : Type} (p : Prog α)
    (h : hasCheck p = true) :
    run_direct (Prog.jit p) =
      Except.error (Failure.traceError "fault cannot be staged") := by
  simp [run_direct, h]

theorem assert_staged_trace_error_witness :
    hasCheck (assert_ false "hi" (Prog.ret ())) = true ∧
    run_direct (Prog.jit (assert_ false "hi" (Prog.ret ()))) =
      Except.error (Failure.traceError "fault cannot be staged") :=
  ⟨rfl, assert_staged_trace_error _ rfl⟩

/-- C7: recharge round-trip: for an Error e that occurred, recharging e
inside a further checkify-wrapped region yields an Error equal to e,
and recharging e with no enclosing transform re-raises the fault as a
live exception carrying e. -/
theorem recharge_round_trip (e : Error) (h : e.err = true) :
    checkify (fun _ : Unit => recharge e) () = (e, ()) ∧
    run_direct (recharge e) = Except.error (Failure.fault e) := by
  obtain ⟨b, code, msgs⟩ := e
  cases b with
  | false => simp at h
  | true =>
      constructor
      · simp [checkify, recharge, assert2_, checkify_run, Error.merge]
      · simp [recharge, assert2_, run_direct]

theorem recharge_round_trip_witness :
    (⟨true, 0, [(0, "foo")]⟩ : Error).err = true ∧
    checkify (fun _ : Unit => recharge ⟨true, 0, [(0, "foo")]⟩) () =
      (⟨true, 0, [(0, "foo")]⟩, ()) :=
  ⟨rfl, (recharge_round_trip _ rfl).1⟩

/-- C8: the checkify-wrapped call never raises for captured faults:
whenever direct execution would raise a fault as a host exception, the
wrapped call returns normally and that fault surfaces only as the
content of the returned Error. -/
theorem captured_fault_no_raise {α : Type} (p : Prog α) (e0 : Error)
    (h : run_direct p = Except.error (Failure.fault e0)) :
    (checkify_run p).1 = e0 ∧ e0.err = true := by
  induction p with
  | ret v => simp [run_direct] at h
  | check pred code msgs k ih =>
      cases pred with
      | false =>
          simp [run_direct] at h
          subst h
          simp [checkify_run, Error.merge]
      | true =>
          simp [run_direct] at h
          obtain ⟨h1, h2⟩ := ih h
          simp [checkify_run, merge_init_left, h1, h2]
  | cond b t f iht ihf =>
      cases b with
      | false =>
          simp [run_direct] at h
          simpa [checkify_run] using ihf h
      | true =>
          simp [run_direct] at h
          simpa [checkify_run] using iht h
  | jit q ih =>
      cases hc : hasCheck q with
      | false =>
          simp [run_direct, hc] at h
          simpa [checkify_run] using ih h
      | true => simp [run_direct, hc] at h

theorem captured_fault_no_raise_witness :
    run_direct (Prog.check false 3 [(3, "bad")] (Prog.ret (0 : Nat))) =
      Except.error (Failure.fault ⟨true, 3, [(3, "bad")]⟩) ∧
    ((checkify_run (Prog.check false 3 [(3, "bad")] (Prog.ret (0 : Nat)))).1
        = ⟨true, 3, [(3, "bad")]⟩ ∧
      (⟨true, 3, [(3, "bad")]⟩ : Error).err = true) :=
  ⟨rfl, captured_fault_no_raise _ _ rfl⟩

theorem checksProg_all_pass {α : Type} (sites : List Site) (v : α)
    (h : ∀ s ∈ sites, s.pred = true) :
    checkify_run (checksProg sites v) = (initError, v) := by
  induction sites with
  | nil => simp [checksProg, checkify_run]
  | cons s rest ih =>
      have hs : s.pred = true := h s (List.mem_cons_self s rest)
      have hr : ∀ t ∈ rest, t.pred = true :=
        fun t ht => h t (List.mem_cons_of_mem s ht)
      simp only [checksProg, List.foldr_cons] at ih ⊢
      simp [checkify_run, hs, ih hr, merge_init_left]

theorem checksPass_congr {α : Type} (pre : List Site) (q : Prog α)
    (h : ∀ t ∈ pre, t.pred = true) :
    checkify_run (pre.foldr (fun t k => Prog.check t.pred t.code t.msgs k) q)
      = checkify_run q := by
  induction pre with
  | nil => rfl
  | cons t rest ih =>
      have ht : t.pred = true := h t (List.mem_cons_self t rest)
      have hr : ∀ u ∈ rest, u.pred = true :=
        fun u hu => h u (List.mem_cons_of_mem t hu)
      simp only [List.foldr_cons]
      simp [checkify_run, ht, merge_init_left, ih hr]

/-- C3: when exactly one check site fails on a straight-line path, the
Error returned by checkify carries that site's code and declared
message, regardless of how many passing sites precede or follow it. -/
theorem single_failing_site {α : Type} (pre post : List Site) (s : Site)
    (v : α) (hpre : ∀ t ∈ pre, t.pred = true)
    (hpost : ∀ t ∈ post, t.pred = true) (hs : s.pred = false) :
    (checkify_run (checksProg (pre ++ s :: post) v)).1
      = ⟨true, s.code, s.msgs⟩ ∧
    (checkify_run (checksProg (pre ++ s :: post) v)).1.get
      = lookupMsg s.code s.msgs := by
  have key : (checkify_run (checksProg (pre ++ s :: post) v)).1
      = ⟨true, s.code, s.msgs⟩ := by
    have hsplit : checksProg (pre ++ s :: post) v
        = pre.foldr (fun t k => Prog.check t.pred t.code t.msgs k)
            (checksProg (s :: post) v) := by
      simp [checksProg, List.foldr_append]
    rw [hsplit, checksPass_congr pre _ hpre]
    simp only [checksProg, List.foldr_cons]
    simp [checkify_run, hs, Error.merge]
  exact ⟨key, by rw [key]; simp [Error.get]⟩

theorem single_failing_site_witness :
    ((∀ t ∈ [(⟨true, 0, [(0, "ok")]⟩ : Site)], t.pred = true) ∧
      (∀ t ∈ [(⟨true, 2, [(2, "later")]⟩ : Site)], t.pred = true) ∧
      (⟨false, 1, [(1, "bad")]⟩ : Site).pred = false) ∧
    (checkify_run (checksProg
        ([⟨true, 0, [(0, "ok")]⟩] ++ ⟨false, 1, [(1, "bad")]⟩ ::
          [⟨true, 2, [(2, "later")]⟩]) (0 : Nat))).1.get
      = lookupMsg 1 [(1, "bad")] :=
  ⟨⟨by simp, by simp, rfl⟩,
    (single_failing_site _ _ _ _ (by simp) (by simp) rfl).2⟩

/-- C9: replication law: checkify over a parallel map yields one Error
per worker, each worker accumulating only over its own input, with no
merge across workers: worker k of the output is exactly the
checkify run of the body at worker k of the inputs, whatever the other
workers carry. -/
theorem pmap_per_worker {ι α : Type} (body : ι → Prog α) (xs : List ι)
    (k : Nat) (x : ι) (h : xs[k]? = some x) :
    (pmapCheckify body xs).length = xs.length ∧
    (pmapCheckify body xs)[k]? = some (checkify_run (body x)) ∧
    (∀ ys : List ι, ys[k]? = some x →
      (pmapCheckify body ys)[k]? = (pmapCheckify body xs)[k]?) := by
  refine ⟨by simp [pmapCheckify], ?_, ?_⟩
  · simp [pmapCheckify, List.getElem?_map, h]
  · intro ys hy
    simp [pmapCheckify, List.getElem?_map, h, hy]

theorem pmap_per_worker_witness :
    ([true, false] : List Bool)[1]? = some false ∧
    ((pmapCheckify
        (fun b => Prog.check b 0 [(0, "w")] (Prog.ret (1 : Nat)))
        [true, false]).length = 2 ∧
      (pmapCheckify
        (fun b => Prog.check b 0 [(0, "w")] (Prog.ret (1 : Nat)))
        [true, false])[1]?
        = some (checkify_run (Prog.check false 0 [(0, "w")] (Prog.ret 1))) ∧
      (∀ ys : List Bool, ys[1]? = some false →
        (pmapCheckify
          (fun b => Prog.check b 0 [(0, "w")] (Prog.ret (1 : Nat))) ys)[1]?
          = (pmapCheckify
              (fun b => Prog.check b 0 [(0, "w")] (Prog.ret (1 : Nat)))
              [true, false])[1]?)) :=
  ⟨rfl, pmap_per_worker _ [true, false] 1 false rfl⟩

/-- C10: staging transparency: checkify of a staged region equals
checkify of its body (erasing every staged-region marker changes
nothing), and the checkified output is ordinary fault-free data, so
staging it again succeeds and preserves the (Error, result) pair. -/
theorem staging_transparency {α : Type} (p : Prog α) :
    checkify_run (Prog.jit p) = checkify_run p ∧
    checkify_run (eraseJit p) = checkify_run p ∧
    hasCheck (Prog.ret (checkify_run p)) = false ∧
    run_direct (Prog.jit (Prog.ret (checkify_run p)))
      = Except.ok (checkify_run p) := by
  refine ⟨rfl, ?_, rfl, rfl⟩
  induction p with
  | ret v => rfl
  | check pred code msgs k ih => simp [eraseJit, checkify_run, ih]
  | cond b t f iht ihf => cases b <;> simp [eraseJit, checkify_run, iht, ihf]
  | jit q ih => simp [eraseJit, checkify_run, ih]

end CheckifySpec
